import Mathlib

/-!
Shallow embedding of `src/input/logstream/filehandling.go` (package
`logstream` of the heka repository).

Go maps from strings are modelled as association lists with
insert-overwrite semantics (`alookup` / `ainsert`); Go `int` is modelled
as `Int` together with explicit saturation at `2^63 - 1` where the source
relies on `strconv.Atoi` ignoring its range error (64-bit platform).
A Go runtime panic (out-of-range index or slice) is modelled as an
explicit `outOfRange` / `none` outcome.
-/

set_option autoImplicit false

namespace Logstream

/-- Lookup in an association list modelling a Go `map[string]α` read. -/
def alookup {α : Type} : List (String × α) → String → Option α
  | [], _ => none
  | (k', v) :: rest, k => if k' = k then some v else alookup rest k

/-- Insert into an association list modelling a Go `map[string]α` write:
overwrites the entry for the key if present, otherwise appends it. -/
def ainsert {α : Type} : List (String × α) → String → α → List (String × α)
  | [], k, v => [(k, v)]
  | (k', v') :: rest, k, v =>
      if k' = k then (k, v) :: rest else (k', v') :: ainsert rest k v

/-- ASCII lowercasing of one character.  Go's `strings.ToLower` applies
Unicode simple case mapping per rune; on the ASCII letters — the only
characters occurring in the calendar table keys — it is exactly this map. -/
def goToLowerChar (c : Char) : Char :=
  if 'A' ≤ c ∧ c ≤ 'Z' then Char.ofNat (c.toNat + 32) else c

/-- Models `strings.ToLower` (per-character case mapping). -/
def goToLower (s : String) : String :=
  String.mk (s.data.map goToLowerChar)

/-- The `MonthLookup` table of filehandling.go. -/
def MonthLookup : List (String × Int) :=
  [("january", 1), ("jan", 1), ("february", 2), ("feb", 2),
   ("march", 3), ("mar", 3), ("april", 4), ("apr", 4),
   ("may", 5), ("june", 6), ("jun", 6), ("july", 7), ("jul", 7),
   ("august", 8), ("aug", 8), ("september", 9), ("sep", 9),
   ("october", 10), ("oct", 10), ("november", 11), ("nov", 11),
   ("december", 12), ("dec", 12)]

/-- The `DayLookup` table of filehandling.go. -/
def DayLookup : List (String × Int) :=
  [("monday", 0), ("mon", 0), ("tuesday", 1), ("tue", 1),
   ("wednesday", 2), ("wed", 2), ("thursday", 3), ("thu", 3),
   ("friday", 4), ("fri", 4), ("saturday", 5), ("sat", 5),
   ("sunday", 6), ("sun", 6)]

/-- Models `digitRegex.MatchString` for `digitRegex = ^\d+$`: true iff the
string is non-empty and consists only of ASCII decimal digits. -/
def isDigits (s : String) : Bool :=
  !s.data.isEmpty && s.data.all Char.isDigit

/-- Numeric value of a string of decimal digits. -/
def natOfDigits (s : String) : Nat :=
  s.data.foldl (fun n c => n * 10 + (c.toNat - 48)) 0

/-- Largest value of Go's `int` on a 64-bit platform. -/
def goMaxInt : Int := 9223372036854775807

/-- Models `strconv.Atoi` on a string of decimal digits, with the error
discarded as in `score, _ = strconv.Atoi(matchValue)`: the numeric value,
saturating at the maximum `int` when it is out of range (64-bit platform). -/
def goAtoi (s : String) : Int :=
  if (natOfDigits s : Int) ≤ goMaxInt then (natOfDigits s : Int) else goMaxInt

/-- The `MatchTranslationMap` type: `map[string]int`. -/
def MatchTranslationMap : Type := List (String × Int)

/-- The `SubmatchTranslationMap` type: `map[string]MatchTranslationMap`. -/
def SubmatchTranslationMap : Type := List (String × MatchTranslationMap)

/-- The `MultipleError` type: a list of collected error messages. -/
def MultipleError : Type := List String

/-- Models `MultipleError.Error()`: `strings.Join(m, " :: ")`. -/
def MultipleError.Error (m : MultipleError) : String :=
  String.intercalate " :: " m

/-- Models `MultipleError.IsError()`: `len(m) > 0`. -/
def MultipleError.IsError (m : MultipleError) : Bool :=
  m.length > 0

/-- The `Logfile` struct: file name, translated integer match parts, and
raw string match parts. -/
structure Logfile where
  FileName : String
  MatchParts : List (String × Int)
  StringMatchParts : List (String × String)
deriving DecidableEq, Repr

/-- Outcome of one `Logfile.PopulateMatchParts` call: normal return with
the mutated logfile and an optional error message, or a runtime panic
from an out-of-range index. -/
inductive ParseOutcome where
  | outOfRange : ParseOutcome
  | errored : Logfile → String → ParseOutcome
  | ok : Logfile → ParseOutcome
deriving DecidableEq, Repr

/-- Score resolution for one named capture slot (`name ≠ ""`), exactly the
if/else-if chain of `Logfile.PopulateMatchParts`: `MonthName` and
`DayName` against the built-in tables on the lowercased value, then a
custom translation sub-table on the verbatim value, then the
all-digits numeric fallback, else the initial `score = -1`. -/
def resolveScore (translation : SubmatchTranslationMap)
    (name matchValue : String) : Except String Int :=
  if name = "MonthName" then
    match alookup MonthLookup (goToLower matchValue) with
    | some score => .ok score
    | none => .error ("Unable to locate month name: " ++ matchValue)
  else if name = "DayName" then
    match alookup DayLookup (goToLower matchValue) with
    | some score => .ok score
    | none => .error ("Unable to locate day name : " ++ matchValue)
  else
    match alookup translation name with
    | some submap =>
        match alookup submap matchValue with
        | some score => .ok score
        | none => .error ("Unable to locate value: (" ++ matchValue ++
            ") in translation map: " ++ name)
    | none =>
        if isDigits matchValue then .ok (goAtoi matchValue) else .ok (-1)

/-- The loop body of `Logfile.PopulateMatchParts`: walk `subexpNames` and
`matches` in lockstep (`matches[i]` panics when `matches` is exhausted),
store each raw value, skip scoring for the anonymous name, store the
resolved score, and return the error — with the mutations made so far —
as soon as one slot's lookup fails. -/
def populateLoop (translation : SubmatchTranslationMap) :
    Logfile → List String → List String → ParseOutcome
  | lf, [], _ => .ok lf
  | _, _ :: _, [] => .outOfRange
  | lf, name :: names, matchValue :: values =>
      let lf' : Logfile :=
        { lf with StringMatchParts := ainsert lf.StringMatchParts name matchValue }
      if name = "" then
        populateLoop translation lf' names values
      else
        match resolveScore translation name matchValue with
        | .error msg => .errored lf' msg
        | .ok score =>
            populateLoop translation
              { lf' with MatchParts := ainsert lf'.MatchParts name score }
              names values

/-- Models `Logfile.PopulateMatchParts(subexpNames, matches, translation)`;
`matchList` is the Go `matches` argument. -/
def Logfile.PopulateMatchParts (lf : Logfile) (subexpNames matchList : List String)
    (translation : SubmatchTranslationMap) : ParseOutcome :=
  populateLoop translation lf subexpNames matchList

/-- One iteration of the loop of `Logfiles.PopulateMatchParts`: the
regular expression is abstracted as `subexpNames` (from
`fileMatch.SubexpNames()`) and `matchFn` (from
`fileMatch.FindStringSubmatch`). -/
def populateOne (subexpNames : List String) (matchFn : String → List String)
    (translation : SubmatchTranslationMap) (lf : Logfile) : ParseOutcome :=
  lf.PopulateMatchParts subexpNames (matchFn lf.FileName) translation

/-- The file loop of `Logfiles.PopulateMatchParts`: every logfile is
attempted; per-file error messages are collected in order; a per-file
panic aborts everything (`none`). Returns the mutated logfiles and the
collected messages. -/
def populateAllLoop (subexpNames : List String) (matchFn : String → List String)
    (translation : SubmatchTranslationMap) :
    List Logfile → Option (List Logfile × List String)
  | [] => some ([], [])
  | lf :: rest =>
      match populateOne subexpNames matchFn translation lf with
      | .outOfRange => none
      | .errored lf' msg =>
          (populateAllLoop subexpNames matchFn translation rest).map
            (fun p => (lf' :: p.1, msg :: p.2))
      | .ok lf' =>
          (populateAllLoop subexpNames matchFn translation rest).map
            (fun p => (lf' :: p.1, p.2))

/-- Models `Logfiles.PopulateMatchParts(fileMatch, translation)`: returns
the mutated collection together with the `MultipleError` when
`errorlist.IsError()`, i.e. when at least one message was collected. -/
def LogfilesPopulateMatchParts (files : List Logfile) (subexpNames : List String)
    (matchFn : String → List String) (translation : SubmatchTranslationMap) :
    Option (List Logfile × Option MultipleError) :=
  (populateAllLoop subexpNames matchFn translation files).map
    (fun p => (p.1, if p.2.length > 0 then some p.2 else none))

/-- The logfile carried by a `ParseOutcome` that returned normally
(mutated state after the call); `none` for a panic. -/
def outcomeFile : ParseOutcome → Option Logfile
  | .outOfRange => none
  | .errored lf _ => some lf
  | .ok lf => some lf

/-- The error message carried by an `errored` outcome. -/
def outcomeMsg : ParseOutcome → Option String
  | .errored _ msg => some msg
  | _ => none

/-- Score of a priority key: Go map indexing `MatchParts[part]` yields the
zero value `0` for an absent key. -/
def scoreOf (lf : Logfile) (part : String) : Int :=
  (alookup lf.MatchParts part).getD 0

/-- Models `ByPriority.Less` on two logfiles `first = l[i]`,
`second = l[j]`: walk the priority keys in order; `part[:1]` panics
(`none`) on an empty key; a leading `^` is stripped and inverts the
comparison for that key only; the first key with unequal scores decides;
all keys equal yields `false`. -/
def ByPriorityLess (first second : Logfile) : List String → Option Bool
  | [] => some false
  | part :: rest =>
      match part.data with
      | [] => none
      | c :: cs =>
          if c = '^' then
            let key := String.mk cs
            if scoreOf first key < scoreOf second key then some false
            else if scoreOf second key < scoreOf first key then some true
            else ByPriorityLess first second rest
          else
            if scoreOf first part < scoreOf second part then some true
            else if scoreOf second part < scoreOf first part then some false
            else ByPriorityLess first second rest

/-- The priority key named by a priority-list entry: a leading `^` is
stripped. -/
def keyOf (part : String) : String :=
  match part.data with
  | '^' :: cs => String.mk cs
  | _ => part

/-- Models `ScanDirectoryForLogfiles(directoryPath, fileMatch)` with the
filesystem walk abstracted: `paths` are the regular files visited in
traversal order and `matchString` is `fileMatch.MatchString`; matching
paths become logfiles with empty match parts. -/
def ScanDirectoryForLogfiles (paths : List String)
    (matchString : String → Bool) : List Logfile :=
  (paths.filter matchString).map
    (fun p => { FileName := p, MatchParts := [], StringMatchParts := [] })

/-- Models `ResolveDifferentiatedName(l, differentiator)`: concatenate,
for each token, the file's raw capture under that token if present, else
the token itself. -/
def ResolveDifferentiatedName (l : Logfile) (differentiator : List String) : String :=
  differentiator.foldl
    (fun name d =>
      match alookup l.StringMatchParts d with
      | some value => name ++ value
      | none => name ++ d) ""

/-- Models `mfs[name] = append(mfs[name], logfile)` on the grouping map:
append to the entry for the key if present, else create it. -/
def groupInsert : List (String × List Logfile) → String → Logfile →
    List (String × List Logfile)
  | [], k, lf => [(k, [lf])]
  | (k', fs) :: rest, k, lf =>
      if k' = k then (k', fs ++ [lf]) :: rest
      else (k', fs) :: groupInsert rest k lf

/-- Models `FilterMultipleStreamFiles(files, differentiator)`: each file
is appended to the group keyed by its resolved differentiated name. -/
def FilterMultipleStreamFiles (files : List Logfile)
    (differentiator : List String) : List (String × List Logfile) :=
  files.foldl (fun mfs lf =>
    groupInsert mfs (ResolveDifferentiatedName lf differentiator) lf) []

/-- The files of one group of a `MultipleLogstreamFileList` (empty when
the key is absent). -/
def lookupGroup (mfs : List (String × List Logfile)) (k : String) : List Logfile :=
  (alookup mfs k).getD []

/-! ### Helper lemmas about the single-file parse loop -/

/-- Running the loop over a successfully processed slot list and then more
slots is running it over the concatenation. -/
theorem populateLoop_append_ok (t : SubmatchTranslationMap) :
    ∀ (ns1 vs1 : List String) (lf lf1 : Logfile) (ns2 vs2 : List String),
      ns1.length = vs1.length → populateLoop t lf ns1 vs1 = .ok lf1 →
      populateLoop t lf (ns1 ++ ns2) (vs1 ++ vs2) = populateLoop t lf1 ns2 vs2 := by
  intro ns1
  induction ns1 with
  | nil =>
      intro vs1 lf lf1 ns2 vs2 hlen h
      cases vs1 with
      | nil =>
          injection h with h
          subst h
          rfl
      | cons v vs => simp at hlen
  | cons n ns ih =>
      intro vs1 lf lf1 ns2 vs2 hlen h
      cases vs1 with
      | nil => simp at hlen
      | cons v vs =>
          simp only [List.length_cons, Nat.succ.injEq] at hlen
          simp only [List.cons_append]
          simp only [populateLoop] at h ⊢
          by_cases hn : n = ""
          · simp only [if_pos hn] at h ⊢
            exact ih vs _ lf1 ns2 vs2 hlen h
          · simp only [if_neg hn] at h ⊢
            cases hr : resolveScore t n v with
            | error msg => rw [hr] at h; simp at h
            | ok score =>
                rw [hr] at h
                simp only [hr]
                exact ih vs _ lf1 ns2 vs2 hlen h

/-- Behaviour of the loop when a slot's lookup fails after a clean prefix:
the result is the error, carrying the state built from the prefix plus the
raw value of the failing slot, and it does not depend on the remaining
slots. -/
theorem populateLoop_error_split (t : SubmatchTranslationMap)
    (ns1 vs1 : List String) (lf lf1 : Logfile) (name v msg : String)
    (ns2 vs2 : List String)
    (hlen : ns1.length = vs1.length)
    (hok : populateLoop t lf ns1 vs1 = .ok lf1)
    (hname : name ≠ "")
    (herr : resolveScore t name v = .error msg) :
    populateLoop t lf (ns1 ++ name :: ns2) (vs1 ++ v :: vs2) =
      .errored { lf1 with StringMatchParts := ainsert lf1.StringMatchParts name v } msg := by
  rw [populateLoop_append_ok t ns1 vs1 lf lf1 (name :: ns2) (v :: vs2) hlen hok]
  simp only [populateLoop, if_neg hname, herr]

/-- The loop never reads past the end of `matches` when there are at least
as many match values as subexpression names. -/
theorem populateLoop_no_oob (t : SubmatchTranslationMap) :
    ∀ (ns vs : List String) (lf : Logfile),
      ns.length ≤ vs.length → populateLoop t lf ns vs ≠ .outOfRange := by
  intro ns
  induction ns with
  | nil =>
      intro vs lf _ h
      simp [populateLoop] at h
  | cons n ns ih =>
      intro vs lf hlen h
      cases vs with
      | nil => simp at hlen
      | cons v vs =>
          simp only [List.length_cons, Nat.succ_le_succ_iff] at hlen
          simp only [populateLoop] at h
          by_cases hn : n = ""
          · rw [if_pos hn] at h
            exact ih vs _ hlen h
          · rw [if_neg hn] at h
            cases hr : resolveScore t n v with
            | error msg => rw [hr] at h; simp at h
            | ok score => rw [hr] at h; exact ih vs _ hlen h

/-! ### C1, C2: what a failed `Logfile.PopulateMatchParts` leaves behind -/

/-- Claim C1 counterexample. On subexpNames `["", "Day", "MonthName"]` and
matches `["x", "5", "Bogus"]` the parse returns an error, yet the logfile
is left holding the score of the earlier `Day` slot and the raw values of
all three slots — not the empty maps the claim requires. -/
theorem populate_error_not_atomic_cex :
    Logfile.PopulateMatchParts ⟨"f", [], []⟩ ["", "Day", "MonthName"] ["x", "5", "Bogus"] [] =
      .errored ⟨"f", [("Day", 5)], [("", "x"), ("Day", "5"), ("MonthName", "Bogus")]⟩
        "Unable to locate month name: Bogus" ∧
    (outcomeFile (Logfile.PopulateMatchParts ⟨"f", [], []⟩
        ["", "Day", "MonthName"] ["x", "5", "Bogus"] [])).map Logfile.MatchParts ≠
      some [] := by
  constructor
  · decide
  · decide

/-- Claim C1, amended: after `Logfile.PopulateMatchParts` returns an
error, the file is not reset — it carries exactly the data accumulated
before the failure: the raw and score entries of every slot processed
before the failing one, plus the raw value of the failing slot. -/
theorem populate_error_keeps_partial_data (t : SubmatchTranslationMap)
    (lf lf1 : Logfile) (ns1 vs1 ns2 vs2 : List String) (name v msg : String)
    (hlen : ns1.length = vs1.length)
    (hok : populateLoop t lf ns1 vs1 = .ok lf1)
    (hname : name ≠ "")
    (herr : resolveScore t name v = .error msg) :
    Logfile.PopulateMatchParts lf (ns1 ++ name :: ns2) (vs1 ++ v :: vs2) t =
      .errored { lf1 with StringMatchParts := ainsert lf1.StringMatchParts name v } msg :=
  populateLoop_error_split t ns1 vs1 lf lf1 name v msg ns2 vs2 hlen hok hname herr

/-- Witness for `populate_error_keeps_partial_data` at a concrete input. -/
theorem populate_error_keeps_partial_data_witness :
    Logfile.PopulateMatchParts ⟨"f", [], []⟩ (["Day"] ++ "MonthName" :: ["Seq"])
        (["5"] ++ "Bogus" :: ["7"]) [] =
      .errored { (⟨"f", [("Day", 5)], [("Day", "5")]⟩ : Logfile) with
          StringMatchParts :=
            ainsert (⟨"f", [("Day", 5)], [("Day", "5")]⟩ : Logfile).StringMatchParts
              "MonthName" "Bogus" }
        "Unable to locate month name: Bogus" :=
  populate_error_keeps_partial_data [] ⟨"f", [], []⟩ ⟨"f", [("Day", 5)], [("Day", "5")]⟩
    ["Day"] ["5"] ["Seq"] ["7"] "MonthName" "Bogus" "Unable to locate month name: Bogus"
    rfl (by decide) (by decide) rfl

/-- Claim C2 counterexample. With subexpNames `["", "MonthName", "Day"]`
and matches `["x", "Bogus", "5"]` the lookup failure at the `MonthName`
slot makes the function return at once: the later `Day` slot is never
processed — neither its raw value nor its score is stored. -/
theorem populate_error_skips_rest_cex :
    Logfile.PopulateMatchParts ⟨"f", [], []⟩ ["", "MonthName", "Day"] ["x", "Bogus", "5"] [] =
      .errored ⟨"f", [], [("", "x"), ("MonthName", "Bogus")]⟩
        "Unable to locate month name: Bogus" ∧
    alookup ([("", "x"), ("MonthName", "Bogus")] : List (String × String)) "Day" = none := by
  constructor
  · decide
  · decide

/-- Claim C2, amended: a lookup failure at one capture slot stops the
parse immediately — the result is the error from the failing slot and is
the same whatever slots follow it, so no later slot is processed. -/
theorem populate_error_stops_processing (t : SubmatchTranslationMap)
    (lf lf1 : Logfile) (ns1 vs1 ns2 vs2 : List String) (name v msg : String)
    (hlen : ns1.length = vs1.length)
    (hok : populateLoop t lf ns1 vs1 = .ok lf1)
    (hname : name ≠ "")
    (herr : resolveScore t name v = .error msg) :
    Logfile.PopulateMatchParts lf (ns1 ++ name :: ns2) (vs1 ++ v :: vs2) t =
      Logfile.PopulateMatchParts lf (ns1 ++ [name]) (vs1 ++ [v]) t := by
  rw [Logfile.PopulateMatchParts, Logfile.PopulateMatchParts,
    populateLoop_error_split t ns1 vs1 lf lf1 name v msg ns2 vs2 hlen hok hname herr,
    populateLoop_error_split t ns1 vs1 lf lf1 name v msg [] [] hlen hok hname herr]

/-! ### C3, C5: score resolution precedence and the numeric fallback -/

/-- Extensional form of the `MonthName` branch of the resolution chain:
the custom translation map is never consulted. -/
theorem resolveScore_month (t : SubmatchTranslationMap) (v : String) :
    resolveScore t "MonthName" v =
      (match alookup MonthLookup (goToLower v) with
       | some s => Except.ok s
       | none => Except.error ("Unable to locate month name: " ++ v)) := rfl

/-- Extensional form of the `DayName` branch of the resolution chain. -/
theorem resolveScore_day (t : SubmatchTranslationMap) (v : String) :
    resolveScore t "DayName" v =
      (match alookup DayLookup (goToLower v) with
       | some s => Except.ok s
       | none => Except.error ("Unable to locate day name : " ++ v)) := rfl

/-- The custom-translation branch: a sub-table for the name is consulted
with the verbatim value, and a missing value is an error even for digit
strings. -/
theorem resolveScore_custom (t : SubmatchTranslationMap) (name v : String)
    (submap : MatchTranslationMap)
    (h2 : name ≠ "MonthName") (h3 : name ≠ "DayName")
    (hsub : alookup t name = some submap) :
    resolveScore t name v =
      (match alookup submap v with
       | some s => Except.ok s
       | none => Except.error ("Unable to locate value: (" ++ v ++
           ") in translation map: " ++ name)) := by
  simp only [resolveScore, if_neg h2, if_neg h3, hsub]

/-- Claim C3 counterexample: the pure-numeric fallback does not store the
numeric value of every digit string — on the 20-digit string 2^64 the
stored score is the saturated maximum 64-bit int, not the value. -/
theorem score_digits_saturation_cex :
    resolveScore [] "Size" "18446744073709551616" = .ok 9223372036854775807 ∧
    (9223372036854775807 : Int) ≠ 18446744073709551616 := by
  exact ⟨rfl, by decide⟩

/-- Claim C3, amended: for a named capture slot the score is resolved in
this exact order — `MonthName`/`DayName` use only the built-in calendar
table on the lowercased value (error if absent, even when a custom
sub-table for that name exists); else a custom sub-table for the name is
consulted with the verbatim value (error if absent); else a value of
decimal digits scores as `strconv.Atoi` of the value (its numeric value,
saturated to 2^63−1 when it exceeds the 64-bit int range); else the score
is exactly −1 and no error is raised. -/
theorem score_resolution_precedence (t : SubmatchTranslationMap) (lf : Logfile)
    (name v : String) :
    (resolveScore t "MonthName" v =
      (match alookup MonthLookup (goToLower v) with
       | some s => Except.ok s
       | none => Except.error ("Unable to locate month name: " ++ v))) ∧
    (resolveScore t "DayName" v =
      (match alookup DayLookup (goToLower v) with
       | some s => Except.ok s
       | none => Except.error ("Unable to locate day name : " ++ v))) ∧
    (∀ submap : MatchTranslationMap, name ≠ "MonthName" → name ≠ "DayName" →
      alookup t name = some submap →
      resolveScore t name v =
        (match alookup submap v with
         | some s => Except.ok s
         | none => Except.error ("Unable to locate value: (" ++ v ++
             ") in translation map: " ++ name))) ∧
    (name ≠ "MonthName" → name ≠ "DayName" → alookup t name = none →
      isDigits v = true → resolveScore t name v = .ok (goAtoi v)) ∧
    (name ≠ "MonthName" → name ≠ "DayName" → alookup t name = none →
      isDigits v = false → resolveScore t name v = .ok (-1)) ∧
    (name ≠ "" →
      Logfile.PopulateMatchParts lf [name] [v] t =
        (match resolveScore t name v with
         | .ok s => .ok ⟨lf.FileName, ainsert lf.MatchParts name s,
             ainsert lf.StringMatchParts name v⟩
         | .error m => .errored ⟨lf.FileName, lf.MatchParts,
             ainsert lf.StringMatchParts name v⟩ m)) := by
  refine ⟨resolveScore_month t v, resolveScore_day t v,
    fun submap h2 h3 hsub => resolveScore_custom t name v submap h2 h3 hsub,
    ?_, ?_, ?_⟩
  · intro h2 h3 hnone hd
    simp [resolveScore, h2, h3, hnone, hd]
  · intro h2 h3 hnone hd
    simp [resolveScore, h2, h3, hnone, hd]
  · intro h1
    simp only [Logfile.PopulateMatchParts, populateLoop, if_neg h1]
    cases hr : resolveScore t name v with
    | error msg => simp
    | ok score => simp [populateLoop]

/-- Witness for `score_resolution_precedence` at a concrete input. -/
theorem score_resolution_precedence_witness :
    resolveScore [("MonthName", [("January", 99)])] "MonthName" "January" = .ok 1 := by
  rw [(score_resolution_precedence [("MonthName", [("January", 99)])] ⟨"w", [], []⟩
    "MonthName" "January").1]
  rfl

/-- Claim C5 counterexample: a digit-only raw value whose numeric value
exceeds the 64-bit machine word stores the saturated maximum int, not the
integer the string denotes. -/
theorem digit_score_overflow_cex :
    Logfile.PopulateMatchParts ⟨"f", [], []⟩ ["", "Seq"] ["f9", "99999999999999999999"] [] =
      .ok ⟨"f", [("Seq", 9223372036854775807)], [("", "f9"), ("Seq", "99999999999999999999")]⟩ ∧
    (9223372036854775807 : Int) ≠ 99999999999999999999 := by
  exact ⟨by decide, by decide⟩

/-- Claim C5, amended: for a named capture slot with no calendar or
custom-translation handling and an all-digit raw value, the stored score
is `strconv.Atoi` of the value: the integer the string denotes (leading
zeros included) whenever that integer fits in a 64-bit int, and the
saturated maximum 2^63−1 beyond that. -/
theorem digit_score_value (t : SubmatchTranslationMap) (lf : Logfile) (name v : String)
    (h1 : name ≠ "") (h2 : name ≠ "MonthName") (h3 : name ≠ "DayName")
    (h4 : alookup t name = none) (h5 : isDigits v = true) :
    Logfile.PopulateMatchParts lf [name] [v] t =
      .ok ⟨lf.FileName, ainsert lf.MatchParts name (goAtoi v),
        ainsert lf.StringMatchParts name v⟩ ∧
    ((natOfDigits v : Int) ≤ goMaxInt → goAtoi v = (natOfDigits v : Int)) ∧
    (goMaxInt < (natOfDigits v : Int) → goAtoi v = goMaxInt) := by
  refine ⟨?_, ?_, ?_⟩
  · simp [Logfile.PopulateMatchParts, populateLoop, resolveScore, h1, h2, h3, h4, h5]
  · intro h
    simp [goAtoi, h]
  · intro h
    rw [goAtoi, if_neg (not_le.mpr h)]

/-- Witness for `digit_score_value` at a concrete input with leading
zeros. -/
theorem digit_score_value_witness :
    Logfile.PopulateMatchParts ⟨"w", [], []⟩ ["Seq"] ["00042"] [] =
      .ok ⟨"w", [("Seq", 42)], [("Seq", "00042")]⟩ := by
  rw [(digit_score_value [] ⟨"w", [], []⟩ "Seq" "00042"
    (by decide) (by decide) (by decide) rfl rfl).1]
  decide

/-! ### C4: case handling of calendar versus custom lookups -/

/-- Claim C4: the `MonthName` and `DayName` lookups are case-insensitive —
the lowercased token is looked up, so tokens equal up to case resolve
alike, and full and abbreviated English names in any letter case yield
the canonical 1–12 month and 0–6 day values — whereas a custom
translation sub-table is consulted with the token verbatim, so two tokens
differing only in case can yield different custom-table outcomes. -/
theorem case_handling_asymmetry :
    (∀ (t : SubmatchTranslationMap) (v1 v2 : String) (s : Int),
        goToLower v1 = goToLower v2 →
        (resolveScore t "MonthName" v1 = .ok s ↔ resolveScore t "MonthName" v2 = .ok s)) ∧
    (∀ (t : SubmatchTranslationMap) (v1 v2 : String) (s : Int),
        goToLower v1 = goToLower v2 →
        (resolveScore t "DayName" v1 = .ok s ↔ resolveScore t "DayName" v2 = .ok s)) ∧
    (∀ t : SubmatchTranslationMap,
        resolveScore t "MonthName" "January" = .ok 1 ∧
        resolveScore t "MonthName" "jan" = .ok 1 ∧
        resolveScore t "MonthName" "FEB" = .ok 2 ∧
        resolveScore t "MonthName" "december" = .ok 12 ∧
        resolveScore t "MonthName" "DEC" = .ok 12 ∧
        resolveScore t "DayName" "Monday" = .ok 0 ∧
        resolveScore t "DayName" "MON" = .ok 0 ∧
        resolveScore t "DayName" "Sunday" = .ok 6 ∧
        resolveScore t "DayName" "sUn" = .ok 6) ∧
    (∀ (t : SubmatchTranslationMap) (name v : String) (submap : MatchTranslationMap),
        name ≠ "MonthName" → name ≠ "DayName" → alookup t name = some submap →
        resolveScore t name v =
          (match alookup submap v with
           | some s => Except.ok s
           | none => Except.error ("Unable to locate value: (" ++ v ++
               ") in translation map: " ++ name))) ∧
    (resolveScore [("Env", [("PROD", 1)])] "Env" "PROD" = .ok 1 ∧
     resolveScore [("Env", [("PROD", 1)])] "Env" "prod" =
       .error "Unable to locate value: (prod) in translation map: Env" ∧
     goToLower "PROD" = goToLower "prod") := by
  refine ⟨?_, ?_, fun t => ⟨rfl, rfl, rfl, rfl, rfl, rfl, rfl, rfl, rfl⟩,
    fun t name v submap h2 h3 hsub => resolveScore_custom t name v submap h2 h3 hsub,
    rfl, rfl, rfl⟩
  · intro t v1 v2 s h
    rw [resolveScore_month t v1, resolveScore_month t v2, h]
    cases alookup MonthLookup (goToLower v2) <;> simp
  · intro t v1 v2 s h
    rw [resolveScore_day t v1, resolveScore_day t v2, h]
    cases alookup DayLookup (goToLower v2) <;> simp

/-- Witness for `case_handling_asymmetry` at a concrete input. -/
theorem case_handling_asymmetry_witness :
    resolveScore [] "MonthName" "JANUARY" = .ok 1 ↔
      resolveScore [] "MonthName" "january" = .ok 1 :=
  case_handling_asymmetry.1 [] "JANUARY" "january" 1 rfl

/-- Witness for `populate_error_stops_processing` at a concrete input. -/
theorem populate_error_stops_processing_witness :
    Logfile.PopulateMatchParts ⟨"g", [], []⟩ (["Day"] ++ "DayName" :: ["Seq"])
        (["5"] ++ "Nonday" :: ["7"]) [] =
      Logfile.PopulateMatchParts ⟨"g", [], []⟩ (["Day"] ++ ["DayName"]) (["5"] ++ ["Nonday"]) [] :=
  populate_error_stops_processing [] ⟨"g", [], []⟩ ⟨"g", [("Day", 5)], [("Day", "5")]⟩
    ["Day"] ["5"] ["Seq"] ["7"] "DayName" "Nonday" "Unable to locate day name : Nonday"
    rfl (by decide) (by decide) rfl

/-! ### C6, C9: the priority comparator -/

/-- A string whose character list is empty is the empty string. -/
theorem string_eq_empty_of_data_nil (p : String) (h : p.data = []) : p = "" := by
  cases p with
  | mk l => cases h; rfl

/-- `keyOf` strips a leading caret. -/
theorem keyOf_caret (cs : List Char) : keyOf (String.mk ('^' :: cs)) = String.mk cs := rfl

/-- `keyOf` leaves a key alone when its first character is not a caret. -/
theorem keyOf_of_ne (c : Char) (cs : List Char) (h : c ≠ '^') :
    keyOf (String.mk (c :: cs)) = String.mk (c :: cs) := by
  unfold keyOf
  split
  · next heq =>
      injection heq with h1 h2
      exact absurd h1 h
  · rfl

/-- The comparator returns a value (does not panic) whenever every
priority key is a non-empty string. -/
theorem byPriorityLess_isSome (a b : Logfile) :
    ∀ priority : List String, (∀ p ∈ priority, p ≠ "") →
      (ByPriorityLess a b priority).isSome = true := by
  intro priority
  induction priority with
  | nil => intro _; rfl
  | cons p rest ih =>
      intro hall
      have hp : p ≠ "" := hall p (by simp)
      have hrest : ∀ q ∈ rest, q ≠ "" := fun q hq => hall q (List.mem_cons_of_mem _ hq)
      obtain ⟨l⟩ := p
      cases l with
      | nil => exact absurd rfl hp
      | cons c cs =>
          simp only [ByPriorityLess]
          split
          · split
            · rfl
            · split
              · rfl
              · exact ih hrest
          · split
            · rfl
            · split
              · rfl
              · exact ih hrest

/-- The comparator panics at once when the first priority key is the
empty string: `part[:1]` is out of range. -/
theorem byPriorityLess_empty_head (a b : Logfile) (rest : List String) :
    ByPriorityLess a b ("" :: rest) = none := rfl

/-- The comparator panics when the empty key is reached, i.e. when every
key before it is non-empty and compares equal on the two files. -/
theorem byPriorityLess_reaches_empty (a b : Logfile) :
    ∀ pre rest : List String,
      (∀ p ∈ pre, p ≠ "" ∧ scoreOf a (keyOf p) = scoreOf b (keyOf p)) →
      ByPriorityLess a b (pre ++ "" :: rest) = none := by
  intro pre
  induction pre with
  | nil => intro rest _; exact byPriorityLess_empty_head a b rest
  | cons p pre ih =>
      intro rest hall
      obtain ⟨hne, hsc⟩ := hall p (by simp)
      have hpre : ∀ q ∈ pre, q ≠ "" ∧ scoreOf a (keyOf q) = scoreOf b (keyOf q) :=
        fun q hq => hall q (List.mem_cons_of_mem _ hq)
      obtain ⟨l⟩ := p
      cases l with
      | nil => exact absurd rfl hne
      | cons c cs =>
          simp only [List.cons_append, ByPriorityLess]
          by_cases hc : c = '^'
          · subst hc
            rw [keyOf_caret] at hsc
            simp only [if_pos rfl, hsc, lt_self_iff_false, if_false]
            exact ih rest hpre
          · rw [keyOf_of_ne c cs hc] at hsc
            simp only [if_neg hc, hsc, lt_self_iff_false, if_false]
            exact ih rest hpre

/-- Claim C9, amended: `ByPriority.Less` slices `part[:1]` on each key it
reaches, so it is total whenever every priority key is non-empty; with an
empty key in the list it panics exactly when that key is reached — for
every pair when the empty key is first, and in general for every pair on
which all keys before the first empty key compare equal — while a pair
that differs on an earlier key is decided without panic. -/
theorem less_totality_precondition :
    (∀ priority : List String, (∀ p ∈ priority, p ≠ "") →
        ∀ a b : Logfile, (ByPriorityLess a b priority).isSome = true) ∧
    (∀ (a b : Logfile) (rest : List String), ByPriorityLess a b ("" :: rest) = none) ∧
    (∀ (a b : Logfile) (pre rest : List String),
        (∀ p ∈ pre, p ≠ "" ∧ scoreOf a (keyOf p) = scoreOf b (keyOf p)) →
        ByPriorityLess a b (pre ++ "" :: rest) = none) :=
  ⟨fun priority h a b => byPriorityLess_isSome a b priority h,
   byPriorityLess_empty_head,
   fun a b pre rest h => byPriorityLess_reaches_empty a b pre rest h⟩

/-- Witness for `less_totality_precondition` at a concrete input. -/
theorem less_totality_precondition_witness :
    (ByPriorityLess ⟨"a", [("A", 0)], []⟩ ⟨"b", [("A", 1)], []⟩ ["A", "^B"]).isSome = true :=
  less_totality_precondition.1 ["A", "^B"] (by decide) ⟨"a", [("A", 0)], []⟩ ⟨"b", [("A", 1)], []⟩

/-- Claim C9 counterexample: with priority `["A", ""]` and two files that
differ on key `A`, the comparator returns before reaching the empty key —
it does not panic for every pair of files. -/
theorem less_empty_key_no_panic_cex :
    ByPriorityLess ⟨"a", [("A", 0)], []⟩ ⟨"b", [("A", 1)], []⟩ ["A", ""] = some true ∧
    (some true : Option Bool) ≠ none := by
  exact ⟨by decide, by decide⟩

/-- Claim C6: the comparator walks the priority keys in order; a key
prefixed with `^` is stripped and compared with inverted direction for
that key only; the first key with unequal scores decides; a key absent
from a file's score map compares as 0; all keys equal yields `false`; and
the documented example (descending `Seq`) returns `true`. -/
theorem by_priority_less_semantics :
    (∀ a b : Logfile, ByPriorityLess a b [] = some false) ∧
    (∀ (a b : Logfile) (c : Char) (cs : List Char) (rest : List String), c ≠ '^' →
        ByPriorityLess a b (String.mk (c :: cs) :: rest) =
          (if scoreOf a (String.mk (c :: cs)) < scoreOf b (String.mk (c :: cs)) then some true
           else if scoreOf b (String.mk (c :: cs)) < scoreOf a (String.mk (c :: cs)) then some false
           else ByPriorityLess a b rest)) ∧
    (∀ (a b : Logfile) (cs : List Char) (rest : List String),
        ByPriorityLess a b (String.mk ('^' :: cs) :: rest) =
          (if scoreOf a (String.mk cs) < scoreOf b (String.mk cs) then some false
           else if scoreOf b (String.mk cs) < scoreOf a (String.mk cs) then some true
           else ByPriorityLess a b rest)) ∧
    (∀ (lf : Logfile) (key : String), alookup lf.MatchParts key = none → scoreOf lf key = 0) ∧
    ByPriorityLess
      ⟨"A", [("Year", 2013), ("MonthName", 8), ("Day", 8), ("Seq", 11)], []⟩
      ⟨"B", [("Year", 2013), ("MonthName", 8), ("Day", 8), ("Seq", 2)], []⟩
      ["Year", "MonthName", "Day", "^Seq"] = some true := by
  refine ⟨fun a b => rfl, ?_, ?_, ?_, by decide⟩
  · intro a b c cs rest hc
    simp only [ByPriorityLess, if_neg hc]
  · intro a b cs rest
    simp [ByPriorityLess]
  · intro lf key h
    simp [scoreOf, h]

/-- Witness for `by_priority_less_semantics` at a concrete input. -/
theorem by_priority_less_semantics_witness :
    ByPriorityLess ⟨"x", [("K", 3)], []⟩ ⟨"y", [("K", 9)], []⟩ (String.mk ('K' :: []) :: []) =
      (if scoreOf ⟨"x", [("K", 3)], []⟩ (String.mk ('K' :: [])) <
            scoreOf ⟨"y", [("K", 9)], []⟩ (String.mk ('K' :: [])) then some true
       else if scoreOf ⟨"y", [("K", 9)], []⟩ (String.mk ('K' :: [])) <
            scoreOf ⟨"x", [("K", 3)], []⟩ (String.mk ('K' :: [])) then some false
       else ByPriorityLess ⟨"x", [("K", 3)], []⟩ ⟨"y", [("K", 9)], []⟩ []) :=
  by_priority_less_semantics.2.1 ⟨"x", [("K", 3)], []⟩ ⟨"y", [("K", 9)], []⟩ 'K' [] []
    (by decide)

/-! ### C7: differentiated grouping -/

/-- Inserting a file under key `k0` changes only the group of `k0`, where
it appends the file. -/
theorem lookupGroup_groupInsert (m : List (String × List Logfile)) (k0 k : String)
    (lf : Logfile) :
    lookupGroup (groupInsert m k0 lf) k =
      if k0 = k then lookupGroup m k ++ [lf] else lookupGroup m k := by
  induction m with
  | nil =>
      by_cases h : k0 = k <;> simp [groupInsert, lookupGroup, alookup, h]
  | cons e rest ih =>
      obtain ⟨a, fs⟩ := e
      by_cases h1 : a = k0
      · subst h1
        by_cases h2 : a = k <;> simp [groupInsert, lookupGroup, alookup, h2]
      · by_cases h2 : a = k
        · subst h2
          have hk : k0 ≠ a := fun hh => h1 hh.symm
          simp [groupInsert, lookupGroup, alookup, h1, hk]
        · have ih' := ih
          simp only [lookupGroup] at ih'
          simp [groupInsert, lookupGroup, alookup, h1, h2, ih']

/-- Folding the grouping step over a file list extends each group by the
files resolving to its key, in input order. -/
theorem lookupGroup_foldl (diff : List String) :
    ∀ (files : List Logfile) (m : List (String × List Logfile)) (k : String),
      lookupGroup (files.foldl (fun mfs lf =>
          groupInsert mfs (ResolveDifferentiatedName lf diff) lf) m) k =
        lookupGroup m k ++ files.filter (fun f => ResolveDifferentiatedName f diff == k) := by
  intro files
  induction files with
  | nil => intro m k; simp
  | cons f fs ih =>
      intro m k
      simp only [List.foldl_cons, List.filter_cons]
      rw [ih, lookupGroup_groupInsert]
      by_cases h : ResolveDifferentiatedName f diff = k
      · simp [h]
      · simp [h]

/-- The group of key `k` is exactly the input files whose resolved
differentiated name is `k`, in input order. -/
theorem lookupGroup_filter (files : List Logfile) (diff : List String) (k : String) :
    lookupGroup (FilterMultipleStreamFiles files diff) k =
      files.filter (fun f => ResolveDifferentiatedName f diff == k) := by
  have h := lookupGroup_foldl diff files [] k
  simpa [FilterMultipleStreamFiles, lookupGroup, alookup] using h

/-- When no differentiator token is among a file's raw captures, the
resolution concatenates the literal tokens, whatever the accumulator. -/
theorem resolve_literal (f : Logfile) :
    ∀ diff : List String, (∀ d ∈ diff, alookup f.StringMatchParts d = none) →
      ∀ acc : String,
        diff.foldl (fun name d =>
          match alookup f.StringMatchParts d with
          | some value => name ++ value
          | none => name ++ d) acc =
        diff.foldl (fun name d => name ++ d) acc := by
  intro diff
  induction diff with
  | nil => intro _ acc; rfl
  | cons d ds ih =>
      intro h acc
      have hd := h d (by simp)
      have hds : ∀ q ∈ ds, alookup f.StringMatchParts q = none :=
        fun q hq => h q (List.mem_cons_of_mem _ hq)
      simp only [List.foldl_cons, hd]
      exact ih hds (acc ++ d)

/-- A file none of whose raw captures is named by the differentiator
resolves to the concatenation of the literal tokens. -/
theorem resolve_no_captures (f : Logfile) (diff : List String)
    (h : ∀ d ∈ diff, alookup f.StringMatchParts d = none) :
    ResolveDifferentiatedName f diff = diff.foldl (fun name d => name ++ d) "" :=
  resolve_literal f diff h ""

/-- Folding the grouping step over files that all resolve to the constant
key `c` keeps a single group under `c` and appends the files in order. -/
theorem foldl_groupInsert_const (diff : List String) (c : String) :
    ∀ (fs : List Logfile) (acc : List Logfile),
      (∀ f ∈ fs, ResolveDifferentiatedName f diff = c) →
      fs.foldl (fun mfs lf => groupInsert mfs (ResolveDifferentiatedName lf diff) lf)
          [(c, acc)] =
        [(c, acc ++ fs)] := by
  intro fs
  induction fs with
  | nil => intro acc _; simp
  | cons f fs ih =>
      intro acc h
      have hf := h f (by simp)
      have hfs : ∀ q ∈ fs, ResolveDifferentiatedName q diff = c :=
        fun q hq => h q (List.mem_cons_of_mem _ hq)
      simp only [List.foldl_cons, hf]
      have hins : groupInsert [(c, acc)] c f = [(c, acc ++ [f])] := by
        simp [groupInsert]
      rw [hins, ih (acc ++ [f]) hfs]
      simp

/-- A non-empty input whose differentiator names no capture of any file
collapses to exactly one group holding all the files. -/
theorem filter_one_group (files : List Logfile) (diff : List String)
    (hne : files ≠ [])
    (h : ∀ f ∈ files, ∀ d ∈ diff, alookup f.StringMatchParts d = none) :
    FilterMultipleStreamFiles files diff =
      [(diff.foldl (fun name d => name ++ d) "", files)] := by
  cases files with
  | nil => exact absurd rfl hne
  | cons f fs =>
      have hres : ∀ g ∈ f :: fs,
          ResolveDifferentiatedName g diff = diff.foldl (fun name d => name ++ d) "" :=
        fun g hg => resolve_no_captures g diff (fun d hd => h g hg d hd)
      show (f :: fs).foldl
          (fun mfs lf => groupInsert mfs (ResolveDifferentiatedName lf diff) lf) [] = _
      rw [List.foldl_cons, hres f (by simp)]
      have hins : groupInsert [] (diff.foldl (fun name d => name ++ d) "") f =
          [(diff.foldl (fun name d => name ++ d) "", [f])] := rfl
      rw [hins, foldl_groupInsert_const diff _ fs [f]
        (fun q hq => hres q (List.mem_cons_of_mem _ hq))]
      simp

/-- Claim C7: a file's stream identifier is the in-order concatenation of
its raw captured value for tokens naming one of its raw captures and the
literal token text otherwise; the group of an identifier holds exactly
the files resolving to it, so two files share a group iff their
identifiers are equal; and for a non-empty input whose differentiator
tokens name no capture of any file the result is exactly one group with
all input files, keyed by the concatenated literal text. -/
theorem differentiated_grouping :
    (∀ (files : List Logfile) (diff : List String) (k : String),
        lookupGroup (FilterMultipleStreamFiles files diff) k =
          files.filter (fun f => ResolveDifferentiatedName f diff == k)) ∧
    (∀ (files : List Logfile) (diff : List String) (f g : Logfile),
        f ∈ files → g ∈ files →
        ((∃ k, f ∈ lookupGroup (FilterMultipleStreamFiles files diff) k ∧
               g ∈ lookupGroup (FilterMultipleStreamFiles files diff) k) ↔
          ResolveDifferentiatedName f diff = ResolveDifferentiatedName g diff)) ∧
    (∀ (files : List Logfile) (diff : List String), files ≠ [] →
        (∀ f ∈ files, ∀ d ∈ diff, alookup f.StringMatchParts d = none) →
        FilterMultipleStreamFiles files diff =
          [(diff.foldl (fun name d => name ++ d) "", files)]) := by
  refine ⟨lookupGroup_filter, ?_, filter_one_group⟩
  intro files diff f g hf hg
  constructor
  · rintro ⟨k, hfk, hgk⟩
    rw [lookupGroup_filter] at hfk hgk
    have h1 := (List.mem_filter.mp hfk).2
    have h2 := (List.mem_filter.mp hgk).2
    rw [beq_iff_eq] at h1 h2
    rw [h1, h2]
  · intro h
    refine ⟨ResolveDifferentiatedName f diff, ?_, ?_⟩
    · rw [lookupGroup_filter]
      exact List.mem_filter.mpr ⟨hf, by simp⟩
    · rw [lookupGroup_filter]
      exact List.mem_filter.mpr ⟨hg, by simp [h]⟩

/-- Witness for `differentiated_grouping` at a concrete input: two files
with no raw captures and a purely literal differentiator land in one
group. -/
theorem differentiated_grouping_witness :
    FilterMultipleStreamFiles [⟨"a", [], []⟩, ⟨"b", [], []⟩] ["one", "-two"] =
      [(["one", "-two"].foldl (fun name d => name ++ d) "",
        [⟨"a", [], []⟩, ⟨"b", [], []⟩])] :=
  differentiated_grouping.2.2 [⟨"a", [], []⟩, ⟨"b", [], []⟩] ["one", "-two"]
    (by decide) (by decide)

/-! ### C8, C10: aggregation over a collection and the match precondition -/

/-- The length of a `filterMap` counts the elements on which the function
returns a value. -/
theorem length_filterMap_countP {α β : Type} (f : α → Option β) :
    ∀ l : List α, (l.filterMap f).length = l.countP (fun a => (f a).isSome) := by
  intro l
  induction l with
  | nil => rfl
  | cons a l ih =>
      cases h : f a with
      | none => simp [List.filterMap_cons, List.countP_cons, h, ih]
      | some b => simp [List.filterMap_cons, List.countP_cons, h, ih]

/-- When no file panics, the file loop returns every file's individual
outcome and the error messages of the failing files, in input order. -/
theorem populateAllLoop_eq (sn : List String) (mf : String → List String)
    (t : SubmatchTranslationMap) :
    ∀ files : List Logfile, (∀ lf ∈ files, populateOne sn mf t lf ≠ .outOfRange) →
      populateAllLoop sn mf t files =
        some (files.map (fun lf => (outcomeFile (populateOne sn mf t lf)).getD lf),
              files.filterMap (fun lf => outcomeMsg (populateOne sn mf t lf))) := by
  intro files
  induction files with
  | nil => intro _; rfl
  | cons lf rest ih =>
      intro h
      have hlf := h lf (by simp)
      have hrest : ∀ q ∈ rest, populateOne sn mf t q ≠ .outOfRange :=
        fun q hq => h q (List.mem_cons_of_mem _ hq)
      simp only [populateAllLoop]
      cases heq : populateOne sn mf t lf with
      | outOfRange => exact absurd heq hlf
      | errored lf' msg =>
          rw [ih hrest]
          simp [heq, outcomeFile, outcomeMsg]
      | ok lf' =>
          rw [ih hrest]
          simp [heq, outcomeFile, outcomeMsg]

/-- Claim C8: `Logfiles.PopulateMatchParts` attempts every file of the
collection regardless of earlier failures; it returns the collected
messages — exactly one per failing file, in order — as a `MultipleError`
whose textual form joins them with the separator `\" :: \"`; and every
file, failing or not, keeps in the collection the raw and score data its
own parse attempt produced (so the successfully parsed files carry their
full correct data). -/
theorem error_aggregation_across_files (sn : List String) (mf : String → List String)
    (t : SubmatchTranslationMap) (files : List Logfile)
    (h : ∀ lf ∈ files, populateOne sn mf t lf ≠ .outOfRange) :
    LogfilesPopulateMatchParts files sn mf t =
      some (files.map (fun lf => (outcomeFile (populateOne sn mf t lf)).getD lf),
            if (files.filterMap (fun lf => outcomeMsg (populateOne sn mf t lf))).length > 0
            then some (files.filterMap (fun lf => outcomeMsg (populateOne sn mf t lf)))
            else none) ∧
    (files.filterMap (fun lf => outcomeMsg (populateOne sn mf t lf))).length =
      files.countP (fun lf => (outcomeMsg (populateOne sn mf t lf)).isSome) ∧
    MultipleError.Error (files.filterMap (fun lf => outcomeMsg (populateOne sn mf t lf))) =
      String.intercalate " :: "
        (files.filterMap (fun lf => outcomeMsg (populateOne sn mf t lf))) ∧
    (∀ lf ∈ files,
      populateOne sn mf t lf = .ok ((outcomeFile (populateOne sn mf t lf)).getD lf) ∨
      ∃ msg, populateOne sn mf t lf =
        .errored ((outcomeFile (populateOne sn mf t lf)).getD lf) msg) := by
  refine ⟨?_, length_filterMap_countP _ files, rfl, ?_⟩
  · unfold LogfilesPopulateMatchParts
    rw [populateAllLoop_eq sn mf t files h]
    rfl
  · intro lf hlf
    cases heq : populateOne sn mf t lf with
    | outOfRange => exact absurd heq (h lf hlf)
    | errored lf' msg => exact Or.inr ⟨msg, rfl⟩
    | ok lf' => exact Or.inl rfl

/-- Witness for `error_aggregation_across_files` at a concrete input: two
files of which one fails to parse. -/
theorem error_aggregation_across_files_witness :
    (LogfilesPopulateMatchParts [⟨"d1", [], []⟩, ⟨"f", [], []⟩] ["", "MonthName"]
        (fun s => if s = "f" then [s, "Bogus"] else [s, "jan"]) []).isSome = true := by
  rw [(error_aggregation_across_files ["", "MonthName"]
    (fun s => if s = "f" then [s, "Bogus"] else [s, "jan"]) []
    [⟨"d1", [], []⟩, ⟨"f", [], []⟩] (by decide)).1]
  rfl

/-- Claim C10: `Logfile.PopulateMatchParts` indexes the submatch list at
every subexpression position, so the loop stays in bounds — and the
collection-level call returns normally — whenever every file's submatch
list is at least as long as `subexpNames` (as `FindStringSubmatch`
guarantees for a matching name); this holds in particular for any
collection produced by `ScanDirectoryForLogfiles`, whose files all
satisfy `MatchString`; for a file whose submatch list is empty (a
non-matching name) the very first index is out of range. -/
theorem parse_input_precondition :
    (∀ (t : SubmatchTranslationMap) (lf : Logfile) (ns vs : List String),
        ns.length ≤ vs.length → populateLoop t lf ns vs ≠ .outOfRange) ∧
    (∀ (sn : List String) (mf : String → List String) (t : SubmatchTranslationMap)
        (files : List Logfile),
        (∀ lf ∈ files, sn.length ≤ (mf lf.FileName).length) →
        (LogfilesPopulateMatchParts files sn mf t).isSome = true) ∧
    (∀ (sn : List String) (mf : String → List String) (t : SubmatchTranslationMap)
        (lf : Logfile), mf lf.FileName = [] → sn ≠ [] →
        populateOne sn mf t lf = .outOfRange) ∧
    (∀ (paths : List String) (ms : String → Bool) (sn : List String)
        (mf : String → List String) (t : SubmatchTranslationMap),
        (∀ p : String, ms p = true → sn.length ≤ (mf p).length) →
        (LogfilesPopulateMatchParts (ScanDirectoryForLogfiles paths ms) sn mf t).isSome
          = true) := by
  have hb : ∀ (sn : List String) (mf : String → List String)
      (t : SubmatchTranslationMap) (files : List Logfile),
      (∀ lf ∈ files, sn.length ≤ (mf lf.FileName).length) →
      (LogfilesPopulateMatchParts files sn mf t).isSome = true := by
    intro sn mf t files h
    unfold LogfilesPopulateMatchParts
    rw [populateAllLoop_eq sn mf t files
      (fun lf hlf => populateLoop_no_oob t sn (mf lf.FileName) lf (h lf hlf))]
    rfl
  refine ⟨fun t lf ns vs h => populateLoop_no_oob t ns vs lf h, hb, ?_, ?_⟩
  · intro sn mf t lf hmf hsn
    cases sn with
    | nil => exact absurd rfl hsn
    | cons n ns =>
        unfold populateOne Logfile.PopulateMatchParts
        rw [hmf]
        rfl
  · intro paths ms sn mf t h
    apply hb
    intro lf hlf
    unfold ScanDirectoryForLogfiles at hlf
    obtain ⟨p, hp, hpeq⟩ := List.mem_map.mp hlf
    have hms : ms p = true := (List.mem_filter.mp hp).2
    rw [← hpeq]
    exact h p hms

/-- Witness for `parse_input_precondition` at a concrete input: an empty
submatch list panics at the first subexpression name. -/
theorem parse_input_precondition_witness :
    populateOne ["whole"] (fun _ => []) [] ⟨"nomatch", [], []⟩ = .outOfRange :=
  parse_input_precondition.2.2.1 ["whole"] (fun _ => []) [] ⟨"nomatch", [], []⟩ rfl
    (by decide)

end Logstream
